import Mathlib

/-!
Verification development for the CryptoLens crypto-analytics core:
the TTL fetch cache (`data_sources.py`) and the cross-source
aggregation layer (`analytics.py`).

Machine floats in the source are modelled as exact rationals (`ℚ`);
Python exceptions become `Option`/`Except` values; the network fetcher
of a cache read becomes an `Option α` argument (`none` = the single
fetch attempt failed, `some d` = it returned payload `d`).
-/

namespace AgentMagnet

/-! ## Rounding (Python `round(x, n)`, half-to-even) -/

/-- Mathematical floor of a rational, computed on the normalized
numerator/denominator with flooring integer division. -/
def qfloor (x : ℚ) : ℤ := x.num.fdiv x.den

/-- Python `round` to the nearest integer, ties to even. -/
def pyRoundInt (x : ℚ) : ℤ :=
  let f := qfloor x
  let r := x - (f : ℚ)
  if r < 1/2 then f
  else if 1/2 < r then f + 1
  else if f % 2 = 0 then f else f + 1

/-- Python `round(x, n)` for `n` decimal digits. -/
def pyRound (x : ℚ) (n : ℕ) : ℚ := (pyRoundInt (x * 10 ^ n) : ℤ) / (10 ^ n : ℚ)

theorem qfloor_intCast (z : ℤ) : qfloor (z : ℚ) = z := by
  simp [qfloor, Rat.num_intCast, Rat.den_intCast]

theorem pyRoundInt_intCast (z : ℤ) : pyRoundInt (z : ℚ) = z := by
  simp only [pyRoundInt, qfloor_intCast, sub_self]
  norm_num

/-- Rounding a rational that is already an integer multiple of `10 ^ (-n)`
changes nothing. -/
theorem pyRound_eq_self_of_scaled_int (x : ℚ) (n : ℕ) (z : ℤ)
    (h : x * 10 ^ n = (z : ℚ)) : pyRound x n = x := by
  have hpow : ((10 : ℚ) ^ n) ≠ 0 := by positivity
  rw [pyRound, h, pyRoundInt_intCast, ← h]
  field_simp

/-! ## Fetch cache (`data_sources.py`)

`_CacheEntry` and `DataSources._cached` translated directly.  The cache
mapping `self._cache : dict[str, _CacheEntry]` is modelled as an
association list with at most one binding per key observable through
`cacheGet`/`cacheSet`. -/

/-- `_CacheEntry`: payload, fetch timestamp, TTL (seconds). -/
structure CacheEntry (α : Type) where
  data : α
  ts : ℚ
  ttl : ℚ
deriving DecidableEq

/-- `_CacheEntry.fresh`: `(time.time() - self.ts) < self.ttl`. -/
def CacheEntry.fresh {α : Type} (e : CacheEntry α) (now : ℚ) : Bool :=
  decide (now - e.ts < e.ttl)

/-- The cache dictionary, keyed by query identity. -/
abbrev Cache (α : Type) := List (String × CacheEntry α)

/-- `self._cache.get(key)`. -/
def cacheGet {α : Type} (c : Cache α) (key : String) : Option (CacheEntry α) :=
  (c.find? (fun kv => kv.1 == key)).map (fun kv => kv.2)

/-- `self._cache[key] = entry` (replace or insert). -/
def cacheSet {α : Type} (c : Cache α) (key : String) (e : CacheEntry α) : Cache α :=
  match c with
  | [] => [(key, e)]
  | kv :: rest => if kv.1 == key then (key, e) :: rest else kv :: cacheSet rest key e

/-- `DataSources._cached(key, ttl, fetcher)`.  The single fetch attempt is
the `fetch : Option α` argument; the result is the returned payload (or a
propagated fetch error) together with the cache state after the call. -/
def cached {α : Type} (c : Cache α) (key : String) (ttl : ℚ) (fetch : Option α)
    (now : ℚ) : Except Unit α × Cache α :=
  match cacheGet c key with
  | some entry =>
    if entry.fresh now then (Except.ok entry.data, c)
    else
      match fetch with
      | some d => (Except.ok d, cacheSet c key ⟨d, now, ttl⟩)
      | none => (Except.ok entry.data, c)
  | none =>
    match fetch with
    | some d => (Except.ok d, cacheSet c key ⟨d, now, ttl⟩)
    | none => (Except.error (), c)

/-- C1: with an existing but stale entry, a failing refresh returns the
previous payload unchanged and leaves the whole cache (in particular that
key's entry) untouched. -/
theorem cached_stale_fetch_failure {α : Type} (c : Cache α) (key : String)
    (ttl now : ℚ) (e : CacheEntry α)
    (hget : cacheGet c key = some e) (hstale : e.fresh now = false) :
    cached c key ttl none now = (Except.ok e.data, c) := by
  unfold cached
  rw [hget]
  simp [hstale]

/-- Helper: a concrete entry of age 5 with TTL 1 is not fresh. -/
theorem entry_42_stale : (⟨42, 0, 1⟩ : CacheEntry ℕ).fresh 5 = false := by
  simp only [CacheEntry.fresh, decide_eq_false_iff_not, not_lt]
  norm_num

/-- Helper: concrete one-entry cache lookup. -/
theorem cacheGet_k42 :
    cacheGet [("k", (⟨42, 0, 1⟩ : CacheEntry ℕ))] "k" = some ⟨42, 0, 1⟩ := by
  simp [cacheGet]

theorem cached_stale_fetch_failure_witness :
    cached [("k", (⟨42, 0, 1⟩ : CacheEntry ℕ))] "k" 1 none 5
      = (Except.ok 42, [("k", ⟨42, 0, 1⟩)]) :=
  cached_stale_fetch_failure [("k", ⟨42, 0, 1⟩)] "k" 1 5 ⟨42, 0, 1⟩
    cacheGet_k42 entry_42_stale

/-- C2: with no prior entry, a failing fetch propagates as an error and
creates no cache entry (the cache is returned unchanged). -/
theorem cached_cold_fetch_failure {α : Type} (c : Cache α) (key : String)
    (ttl now : ℚ) (hget : cacheGet c key = none) :
    cached c key ttl none now = (Except.error (), c) := by
  unfold cached
  rw [hget]

/-- Helper: lookup in the empty cache misses. -/
theorem cacheGet_nil : cacheGet ([] : Cache ℕ) "k" = none := rfl

theorem cached_cold_fetch_failure_witness :
    cached ([] : Cache ℕ) "k" 300 none 7 = (Except.error (), []) :=
  cached_cold_fetch_failure [] "k" 300 7 cacheGet_nil

/-- C3: with a fresh entry, the read returns the stored payload, performs
no network call (the result does not depend on the fetcher at all) and
does not mutate the cache. -/
theorem cached_fresh_hit {α : Type} (c : Cache α) (key : String)
    (ttl now : ℚ) (e : CacheEntry α) (fetch : Option α)
    (hget : cacheGet c key = some e) (hfresh : e.fresh now = true) :
    cached c key ttl fetch now = (Except.ok e.data, c) := by
  unfold cached
  rw [hget]
  simp [hfresh]

/-- Helper: a concrete entry of age 5 with TTL 300 is fresh. -/
theorem entry_42_fresh : (⟨42, 0, 300⟩ : CacheEntry ℕ).fresh 5 = true := by
  simp only [CacheEntry.fresh, decide_eq_true_eq]
  norm_num

/-- Helper: concrete fresh-entry cache lookup. -/
theorem cacheGet_k42_fresh :
    cacheGet [("k", (⟨42, 0, 300⟩ : CacheEntry ℕ))] "k" = some ⟨42, 0, 300⟩ := by
  simp [cacheGet]

theorem cached_fresh_hit_witness :
    cached [("k", (⟨42, 0, 300⟩ : CacheEntry ℕ))] "k" 300 (some 99) 5
      = (Except.ok 42, [("k", ⟨42, 0, 300⟩)]) :=
  cached_fresh_hit [("k", ⟨42, 0, 300⟩)] "k" 300 5 ⟨42, 0, 300⟩ (some 99)
    cacheGet_k42_fresh entry_42_fresh

/-! ## Sentiment divergence (`analytics._sentiment_divergence`) -/

/-- `fng_norm = (fng_value - 50) / 50`. -/
def fng_norm_of (v : ℤ) : ℚ := ((v : ℚ) - 50) / 50

/-- `price_norm = max(-1, min(1, price_change_pct / 10))`. -/
def price_norm_of (p : ℚ) : ℚ := max (-1) (min 1 (p / 10))

/-- `divergence = round(fng_norm - price_norm, 3)`. -/
def divergence_of (v : ℤ) (p : ℚ) : ℚ := pyRound (fng_norm_of v - price_norm_of p) 3

structure DivergenceResult where
  signal : String
  divergence_score : ℚ
  description : String
  fear_greed_normalized : ℚ
  price_action_normalized : ℚ
deriving DecidableEq

/-- `_sentiment_divergence(fng_value, price_change_pct)`: the float literal
`0.4` of the source is the rational `2/5`. -/
def sentiment_divergence (v : ℤ) (p : ℚ) : DivergenceResult :=
  if 2/5 < divergence_of v p then
    { signal := "greedy_despite_drop"
      divergence_score := divergence_of v p
      description := "Market sentiment is greedy while prices are falling — potential complacency"
      fear_greed_normalized := pyRound (fng_norm_of v) 3
      price_action_normalized := pyRound (price_norm_of p) 3 }
  else if divergence_of v p < -(2/5) then
    { signal := "fearful_despite_rise"
      divergence_score := divergence_of v p
      description := "Market sentiment is fearful while prices are rising — potential opportunity"
      fear_greed_normalized := pyRound (fng_norm_of v) 3
      price_action_normalized := pyRound (price_norm_of p) 3 }
  else
    { signal := "aligned"
      divergence_score := divergence_of v p
      description := "Sentiment and price action are broadly aligned"
      fear_greed_normalized := pyRound (fng_norm_of v) 3
      price_action_normalized := pyRound (price_norm_of p) 3 }

/-- Clamping as worded by the spec, for comparison with the source's
nested `max`/`min`. -/
def specClamp (lo hi x : ℚ) : ℚ := min (max x lo) hi

theorem price_norm_eq_clamp (p : ℚ) : price_norm_of p = specClamp (-10) 10 p / 10 := by
  unfold price_norm_of specClamp
  rcases le_total p (-10) with h | h
  · rw [max_eq_right h, min_eq_left (by norm_num : (-10:ℚ) ≤ 10),
      min_eq_right (by linarith : p / 10 ≤ (1:ℚ)),
      max_eq_left (by linarith : p / 10 ≤ (-1:ℚ))]
    linarith
  · rcases le_total p 10 with h2 | h2
    · rw [max_eq_left h, min_eq_left h2,
        min_eq_right (by linarith : p / 10 ≤ (1:ℚ)),
        max_eq_right (by linarith : (-1:ℚ) ≤ p / 10)]
    · rw [max_eq_left (by linarith : (-10:ℚ) ≤ p), min_eq_right h2,
        min_eq_left (by linarith : (1:ℚ) ≤ p / 10),
        max_eq_right (by norm_num : (-1:ℚ) ≤ 1)]
      norm_num

theorem sd_score (v : ℤ) (p : ℚ) :
    (sentiment_divergence v p).divergence_score = divergence_of v p := by
  unfold sentiment_divergence
  split_ifs <;> rfl

theorem sd_fgn (v : ℤ) (p : ℚ) :
    (sentiment_divergence v p).fear_greed_normalized = pyRound (fng_norm_of v) 3 := by
  unfold sentiment_divergence
  split_ifs <;> rfl

theorem sd_pan (v : ℤ) (p : ℚ) :
    (sentiment_divergence v p).price_action_normalized = pyRound (price_norm_of p) 3 := by
  unfold sentiment_divergence
  split_ifs <;> rfl

theorem sd_signal (v : ℤ) (p : ℚ) :
    (sentiment_divergence v p).signal
      = (if 2/5 < divergence_of v p then "greedy_despite_drop"
         else if divergence_of v p < -(2/5) then "fearful_despite_rise"
         else "aligned") := by
  unfold sentiment_divergence
  split_ifs <;> rfl

/-- C4: the divergence computation normalizes sentiment as `(v - 50) / 50`
and price as `clamp(p, -10, 10) / 10`, rounds their difference to 3
decimals, classifies by the 0.4 thresholds, and satisfies the four
worked examples of the spec. -/
theorem sentiment_divergence_spec :
    (∀ (v : ℤ) (p : ℚ),
        (sentiment_divergence v p).fear_greed_normalized = ((v : ℚ) - 50) / 50
      ∧ (sentiment_divergence v p).divergence_score
          = pyRound (((v : ℚ) - 50) / 50 - specClamp (-10) 10 p / 10) 3
      ∧ (sentiment_divergence v p).signal
          = (if 2/5 < (sentiment_divergence v p).divergence_score then "greedy_despite_drop"
             else if (sentiment_divergence v p).divergence_score < -(2/5) then
               "fearful_despite_rise"
             else "aligned")
      ∧ (sentiment_divergence v 50).price_action_normalized = 1)
  ∧ ((sentiment_divergence 50 0).divergence_score = 0
      ∧ (sentiment_divergence 50 0).signal = "aligned")
  ∧ ((sentiment_divergence 90 (-8)).divergence_score = 8/5
      ∧ (sentiment_divergence 90 (-8)).signal = "greedy_despite_drop")
  ∧ ((sentiment_divergence 10 8).divergence_score = -(8/5)
      ∧ (sentiment_divergence 10 8).signal = "fearful_despite_rise") := by
  have hd50 : divergence_of 50 0 = 0 := by
    have h1 : fng_norm_of 50 - price_norm_of 0 = 0 := by
      simp [fng_norm_of, price_norm_of, min_def, max_def]
    rw [divergence_of, h1, pyRound_eq_self_of_scaled_int 0 3 0 (by norm_num)]
  have hd90 : divergence_of 90 (-8) = 8/5 := by
    have h1 : fng_norm_of 90 - price_norm_of (-8) = 8/5 := by
      rw [fng_norm_of, price_norm_of]
      rw [min_eq_right (by norm_num : (-8:ℚ)/10 ≤ 1),
        max_eq_right (by norm_num : (-1:ℚ) ≤ -8/10)]
      norm_num
    rw [divergence_of, h1, pyRound_eq_self_of_scaled_int (8/5) 3 1600 (by norm_num)]
  have hd10 : divergence_of 10 8 = -(8/5) := by
    have h1 : fng_norm_of 10 - price_norm_of 8 = -(8/5) := by
      rw [fng_norm_of, price_norm_of]
      rw [min_eq_right (by norm_num : (8:ℚ)/10 ≤ 1),
        max_eq_right (by norm_num : (-1:ℚ) ≤ 8/10)]
      norm_num
    rw [divergence_of, h1, pyRound_eq_self_of_scaled_int (-(8/5)) 3 (-1600) (by norm_num)]
  refine ⟨fun v p => ⟨?_, ?_, ?_, ?_⟩, ⟨?_, ?_⟩, ⟨?_, ?_⟩, ⟨?_, ?_⟩⟩
  · rw [sd_fgn]
    exact pyRound_eq_self_of_scaled_int (fng_norm_of v) 3 ((v - 50) * 20)
      (by rw [fng_norm_of]; push_cast; ring)
  · rw [sd_score, divergence_of, price_norm_eq_clamp, fng_norm_of]
  · rw [sd_signal, sd_score]
  · rw [sd_pan]
    have h1 : price_norm_of 50 = 1 := by
      rw [price_norm_of, min_eq_left (by norm_num : (1:ℚ) ≤ 50/10),
        max_eq_right (by norm_num : (-1:ℚ) ≤ 1)]
    rw [h1, pyRound_eq_self_of_scaled_int 1 3 1000 (by norm_num)]
  · rw [sd_score, hd50]
  · rw [sd_signal, hd50]; norm_num
  · rw [sd_score, hd90]
  · rw [sd_signal, hd90]; norm_num
  · rw [sd_score, hd10]
  · rw [sd_signal, hd10]; norm_num

/-! ## Ratio edge cases (`market_overview`, `token_analysis`) -/

/-- Total DeFi TVL in `market_overview`:
`sum(c.get("tvl", 0) for c in chains) if chains else 0`, with each chain
represented by its (defaulted) tvl number. -/
def market_overview_total_tvl (chains : List ℚ) : ℚ :=
  if chains.isEmpty then 0 else chains.sum

/-- Source line: `mcap_tvl_ratio = round(total_mcap / total_tvl, 2) if
total_tvl else None`.  A Python number is truthy iff nonzero. -/
def mcap_tvl_quot (total_mcap total_tvl : ℚ) : Option ℚ :=
  if total_tvl ≠ 0 then some (pyRound (total_mcap / total_tvl) 2) else none

/-- Source line: `vol_mcap_ratio = round(vol24 / mcap, 4) if mcap else None`. -/
def vol_mcap_quot (vol24 mcap : ℚ) : Option ℚ :=
  if mcap ≠ 0 then some (pyRound (vol24 / mcap) 4) else none

/-- C5 counterexample: with a (pathological) negative total TVL, or a
negative market cap, the code still produces a defined quotient although
the total is not positive — the claim's "defined only when > 0" fails. -/
theorem quot_negative_denominator_cex :
    (mcap_tvl_quot 10 (market_overview_total_tvl [-1])).isSome = true
  ∧ ¬ (0 < market_overview_total_tvl [-1])
  ∧ (vol_mcap_quot 5 (-2)).isSome = true
  ∧ ¬ (0 < (-2 : ℚ)) := by
  have htvl : market_overview_total_tvl [-1] = -1 := by
    simp [market_overview_total_tvl]
  refine ⟨?_, ?_, ?_, by norm_num⟩
  · rw [htvl, mcap_tvl_quot, if_pos (by norm_num : (-1:ℚ) ≠ 0)]
    rfl
  · rw [htvl]; norm_num
  · rw [vol_mcap_quot, if_pos (by norm_num : (-2:ℚ) ≠ 0)]
    rfl

/-- C5 amended: the market-cap-to-TVL quotient is defined exactly when the
total TVL is nonzero (null when it is zero), the volume-to-market-cap
quotient exactly when the market cap is nonzero, and both are total
functions — no division error is possible. -/
theorem quot_defined_iff_nonzero :
    (∀ m t : ℚ, (mcap_tvl_quot m t).isSome = true ↔ t ≠ 0)
  ∧ (∀ v m : ℚ, (vol_mcap_quot v m).isSome = true ↔ m ≠ 0)
  ∧ (∀ chains : List ℚ, market_overview_total_tvl chains = chains.sum) := by
  refine ⟨?_, ?_, ?_⟩
  · intro m t
    by_cases h : t = 0 <;> simp [mcap_tvl_quot, h]
  · intro v m
    by_cases h : m = 0 <;> simp [vol_mcap_quot, h]
  · intro chains
    cases chains <;> simp [market_overview_total_tvl]

/-! ## Lower-casing and substring search

Python `needle in key.lower()` on ASCII chain keys, modelled on the
character list of the string. -/

/-- `s.lower()` as a character list. -/
def lowerChars (s : String) : List Char := s.data.map Char.toLower

/-- Does `hay` start with `needle`? -/
def startsWithList : List Char → List Char → Bool
  | _, [] => true
  | [], _ :: _ => false
  | a :: as, b :: bs => a == b && startsWithList as bs

/-- Does `needle` occur contiguously anywhere in `hay`? -/
def containsSub (needle : List Char) : List Char → Bool
  | [] => startsWithList [] needle
  | a :: as => startsWithList (a :: as) needle || containsSub needle as

/-- `needle in k.lower()` (the needles of interest are already lowercase). -/
def strHas (k : String) (needle : String) : Bool := containsSub needle.data (lowerChars k)

theorem startsWithList_iff (hay needle : List Char) :
    startsWithList hay needle = true ↔ needle <+: hay := by
  induction hay generalizing needle with
  | nil =>
    cases needle <;> simp [startsWithList]
  | cons a as ih =>
    cases needle with
    | nil => simp [startsWithList]
    | cons b bs =>
      show (a == b && startsWithList as bs) = true ↔ _
      rw [Bool.and_eq_true, beq_iff_eq, ih, List.cons_prefix_cons]
      exact and_congr eq_comm Iff.rfl

theorem containsSub_iff (needle hay : List Char) :
    containsSub needle hay = true ↔ needle <:+: hay := by
  induction hay with
  | nil =>
    simp [containsSub, startsWithList_iff]
  | cons a as ih =>
    rw [containsSub, Bool.or_eq_true, startsWithList_iff, ih, List.infix_cons_iff]

/-! ## Protocol comparison (`analytics.protocol_comparison`) -/

/-- One JSON value of the `currentChainTvls` mapping: either a number
(Python `isinstance(v, (int, float))`) or anything else. -/
inductive JVal where
  | num (q : ℚ)
  | other
deriving DecidableEq

def JVal.isNum : JVal → Bool
  | .num _ => true
  | .other => false

def JVal.val : JVal → ℚ
  | .num q => q
  | .other => 0

/-- An entry of the `/protocols` list, with the fields the code reads
(`.get` defaults modelled by `Option`). -/
structure ProtoListEntry where
  slug : Option String
  name : Option String
  symbol : Option String
  tvl : Option ℚ
  change_1h : Option ℚ
  change_1d : Option ℚ
  change_7d : Option ℚ
deriving DecidableEq

/-- A `/protocol/slug` detail payload, with the fields the code reads. -/
structure ProtoDetail where
  name : Option String
  symbol : Option String
  currentChainTvls : List (String × JVal)
  chain : Option String
  chains : List String
  category : Option String
  mcap : Option ℚ
  url : Option String
deriving DecidableEq

/-- A key of `currentChainTvls` is excluded when it contains (after
lower-casing) "borrowed", "staking", "pool2" or "vesting". -/
def chainKeyFlagged (k : String) : Bool :=
  strHas k "borrowed" || strHas k "staking" || strHas k "pool2" || strHas k "vesting"

/-- `total_tvl = sum(v for k, v in current_tvls.items() if isinstance(v,
(int, float)) and "borrowed" not in k.lower() and ...)`. -/
def protoTotalTvl (tvls : List (String × JVal)) : ℚ :=
  ((tvls.filter (fun kv => kv.2.isNum && !chainKeyFlagged kv.1)).map
    (fun kv => kv.2.val)).sum

/-- The success record appended by `protocol_comparison` for one slug. -/
structure ProtoRecord where
  slug : String
  name : Option String
  symbol : Option String
  tvl_usd : ℚ
  chain : Option String
  chains : List String
  category : Option String
  change_1h : Option ℚ
  change_1d : Option ℚ
  change_7d : Option ℚ
  mcap : Option ℚ
  url : Option String
deriving DecidableEq

/-- One result item: a full record or the error marker
`{"slug": slug, "error": "not found"}`. -/
inductive CompareItem where
  | ok (r : ProtoRecord)
  | err (slug : String)
deriving DecidableEq

def CompareItem.slugOf : CompareItem → String
  | .ok r => r.slug
  | .err s => s

def CompareItem.isErr : CompareItem → Bool
  | .ok _ => false
  | .err _ => true

def CompareItem.tvlOf : CompareItem → Option ℚ
  | .ok r => some r.tvl_usd
  | .err _ => none

/-- `proto_by_slug = {p.get("slug", "").lower(): p for p in
all_protocols}` followed by `.get(slug.lower(), {})`: in a dict built by
comprehension the last entry for a key wins. -/
def protoBySlug (plist : Option (List ProtoListEntry)) (slug : String) :
    Option ProtoListEntry :=
  match plist with
  | none => none
  | some ps =>
    ps.reverse.find? (fun p => lowerChars (p.slug.getD "") == lowerChars slug)

/-- The loop body of `protocol_comparison` for one slug: the detail fetch
result decides between the success record and the error marker. -/
def protoItem (plist : Option (List ProtoListEntry)) (slug : String) :
    Option ProtoDetail → CompareItem
  | some p =>
    let e := protoBySlug plist slug
    .ok { slug := slug
          name := p.name
          symbol := p.symbol
          tvl_usd := pyRound (protoTotalTvl p.currentChainTvls) 2
          chain := p.chain
          chains := p.chains
          category := p.category
          change_1h := e.bind (fun q => q.change_1h)
          change_1d := e.bind (fun q => q.change_1d)
          change_7d := e.bind (fun q => q.change_7d)
          mcap := p.mcap
          url := p.url }
  | none => .err slug

/-- `protocol_comparison(slugs)`: iterate over `slugs[:10]`, one item per
slug, and return the items with their count. -/
def protocol_comparison (fetchDetail : String → Option ProtoDetail)
    (plist : Option (List ProtoListEntry)) (slugs : List String) :
    List CompareItem × ℕ :=
  let results := (slugs.take 10).map (fun s => protoItem plist s (fetchDetail s))
  (results, results.length)

/-- C6: the batch is truncated to the first 10 slugs, yields exactly one
item per retained slug in input order, marks an error exactly when that
slug's fetch fails, and the item at a position depends only on that
position's slug fetch — a failure elsewhere cannot alter it. -/
theorem protocol_comparison_isolation :
    ∀ (fetch fetch' : String → Option ProtoDetail)
      (plist : Option (List ProtoListEntry)) (slugs : List String),
      (protocol_comparison fetch plist slugs).2
        = (protocol_comparison fetch plist slugs).1.length
    ∧ (protocol_comparison fetch plist slugs).1.length = min 10 slugs.length
    ∧ (∀ i (hi : i < slugs.length), i < 10 →
        (protocol_comparison fetch plist slugs).1[i]?
          = some (protoItem plist (slugs.get ⟨i, hi⟩) (fetch (slugs.get ⟨i, hi⟩))))
    ∧ (∀ slug d, (protoItem plist slug d).slugOf = slug)
    ∧ (∀ slug d, (protoItem plist slug d).isErr = true ↔ d = none)
    ∧ (∀ i (hi : i < slugs.length),
        fetch (slugs.get ⟨i, hi⟩) = fetch' (slugs.get ⟨i, hi⟩) →
        (protocol_comparison fetch plist slugs).1[i]?
          = (protocol_comparison fetch' plist slugs).1[i]?) := by
  intro fetch fetch' plist slugs
  have hget : ∀ (f : String → Option ProtoDetail) i (hi : i < slugs.length), i < 10 →
      (protocol_comparison f plist slugs).1[i]?
        = some (protoItem plist (slugs.get ⟨i, hi⟩) (f (slugs.get ⟨i, hi⟩))) := by
    intro f i hi h10
    show ((slugs.take 10).map (fun s => protoItem plist s (f s)))[i]? = _
    rw [List.getElem?_map, List.getElem?_take_of_lt h10,
      List.getElem?_eq_getElem hi]
    rfl
  refine ⟨rfl, ?_, hget fetch, ?_, ?_, ?_⟩
  · show ((slugs.take 10).map (fun s => protoItem plist s (fetch s))).length = _
    rw [List.length_map, List.length_take]
  · intro slug d
    cases d <;> rfl
  · intro slug d
    cases d <;> simp [protoItem, CompareItem.isErr]
  · intro i hi heq
    by_cases h10 : i < 10
    · rw [hget fetch i hi h10, hget fetch' i hi h10, heq]
    · have hlen : ∀ (f : String → Option ProtoDetail),
          (protocol_comparison f plist slugs).1.length ≤ i := by
        intro f
        show ((slugs.take 10).map (fun s => protoItem plist s (f s))).length ≤ i
        rw [List.length_map, List.length_take]
        omega
      rw [List.getElem?_eq_none (hlen fetch), List.getElem?_eq_none (hlen fetch')]

/-- Helper: an empty protocol detail, as a concrete fetch payload. -/
def sampleDetail : ProtoDetail :=
  { name := none, symbol := none, currentChainTvls := [], chain := none,
    chains := [], category := none, mcap := none, url := none }

theorem protocol_comparison_isolation_witness :
    (protocol_comparison (fun s => if s == "bad" then none else some sampleDetail)
        none ["good", "bad"]).1[0]?
      = (protocol_comparison (fun _ => some sampleDetail) none ["good", "bad"]).1[0]? :=
  (protocol_comparison_isolation
      (fun s => if s == "bad" then none else some sampleDetail)
      (fun _ => some sampleDetail) none ["good", "bad"]).2.2.2.2.2
    0 (by decide) (by decide)

theorem qfloor_eq_floor (x : ℚ) : qfloor x = ⌊x⌋ := by
  rw [qfloor, Int.fdiv_eq_ediv _ (by exact_mod_cast Nat.zero_le x.den), Rat.floor_def]

/-- C7 amended: the reported `tvl_usd` of a successfully fetched protocol
is the filtered per-chain sum rounded to 2 decimals; the filter keeps
exactly the numeric values whose key has no flagged substring
(case-insensitively); the spec's worked example sums to 100. -/
theorem proto_tvl_filter_spec :
    (∀ (plist : Option (List ProtoListEntry)) (slug : String) (d : ProtoDetail),
        (protoItem plist slug (some d)).tvlOf
          = some (pyRound (protoTotalTvl d.currentChainTvls) 2))
  ∧ (∀ tvls : List (String × JVal),
        protoTotalTvl tvls
          = ((tvls.filter (fun kv => kv.2.isNum && !chainKeyFlagged kv.1)).map
              (fun kv => kv.2.val)).sum)
  ∧ (∀ k : String, chainKeyFlagged k = true ↔
        ("borrowed".data <:+: lowerChars k ∨ "staking".data <:+: lowerChars k
          ∨ "pool2".data <:+: lowerChars k ∨ "vesting".data <:+: lowerChars k))
  ∧ protoTotalTvl [("Ethereum", JVal.num 100), ("Ethereum-borrowed", JVal.num 40),
      ("Polygon-staking", JVal.num 10)] = 100 := by
  refine ⟨fun plist slug d => rfl, fun tvls => rfl, ?_, ?_⟩
  · intro k
    simp only [chainKeyFlagged, strHas, Bool.or_eq_true, containsSub_iff, or_assoc]
  · have h1 : chainKeyFlagged "Ethereum" = false := by decide
    have h2 : chainKeyFlagged "Ethereum-borrowed" = true := by decide
    have h3 : chainKeyFlagged "Polygon-staking" = true := by decide
    simp [protoTotalTvl, List.filter_cons, h1, h2, h3, JVal.isNum, JVal.val]

/-- C7 counterexample: the claim as stated says the reported total TVL
equals the filtered sum, but the code reports `round(total, 2)`: a
per-chain value of 1/8 (0.125) is reported as 0.12, not 0.125. -/
theorem proto_tvl_rounding_cex :
    (protoItem none "uniswap"
        (some { name := none, symbol := none,
                currentChainTvls := [("Ethereum", JVal.num (1/8))],
                chain := none, chains := [], category := none,
                mcap := none, url := none })).tvlOf
      = some (12/100)
  ∧ protoTotalTvl [("Ethereum", JVal.num (1/8))] = 1/8
  ∧ (12/100 : ℚ) ≠ 1/8 := by
  have hflag : chainKeyFlagged "Ethereum" = false := by decide
  have htot : protoTotalTvl [("Ethereum", JVal.num (1/8))] = 1/8 := by
    simp [protoTotalTvl, List.filter_cons, hflag, JVal.isNum, JVal.val]
  have hfloor : qfloor (25/2 : ℚ) = 12 := by
    rw [qfloor_eq_floor,
      show (25/2 : ℚ) = ((25 : ℤ) : ℚ) / ((2 : ℕ) : ℚ) by norm_num,
      Rat.floor_intCast_div_natCast]
    decide
  have hpri : pyRoundInt (25/2 : ℚ) = 12 := by
    simp only [pyRoundInt, hfloor]
    norm_num
  have hpr : pyRound (1/8 : ℚ) 2 = 12/100 := by
    rw [pyRound, show (1/8 : ℚ) * 10 ^ 2 = 25/2 by norm_num, hpri]
    norm_num
  refine ⟨?_, htot, by norm_num⟩
  show some (pyRound (protoTotalTvl [("Ethereum", JVal.num (1/8))]) 2) = some (12/100)
  rw [htot, hpr]

/-! ## Chain TVL ranking (`analytics.chain_tvl_ranking`)

`sorted(chains, key=lambda c: c.get("tvl", 0), reverse=True)` is Python's
stable sort in descending key order; it is embedded as a stable insertion
sort, characterized below as sorted, a permutation of the input, and
preserving the relative order of equal keys. -/

/-- One element of the `/v2/chains` payload, with the fields the code
reads. -/
structure ChainInfo where
  name : Option String
  tvl : Option ℚ
  tokenSymbol : Option String
  gecko_id : Option String
deriving DecidableEq

/-- The sort key `c.get("tvl", 0)`. -/
def tvlKey (c : ChainInfo) : ℚ := c.tvl.getD 0

/-- Insert into a descending-sorted list, after all strictly larger keys
and before equal ones (stability for a fold from the right). -/
def insertDesc (a : ChainInfo) : List ChainInfo → List ChainInfo
  | [] => [a]
  | x :: xs => if tvlKey a < tvlKey x then x :: insertDesc a xs else a :: x :: xs

/-- Stable descending sort by `tvlKey`. -/
def sortTvlDesc (l : List ChainInfo) : List ChainInfo := l.foldr insertDesc []

/-- The per-chain projection returned in the top-20 list (note:
`c.get("tvl")` here, without default). -/
structure ChainProj where
  name : Option String
  tvl : Option ℚ
  tokenSymbol : Option String
  gecko_id : Option String
deriving DecidableEq

def projChain (c : ChainInfo) : ChainProj :=
  { name := c.name, tvl := c.tvl, tokenSymbol := c.tokenSymbol,
    gecko_id := c.gecko_id }

structure ChainRanking where
  chains : List ChainProj
  total_tvl : ℚ
deriving DecidableEq

/-- `chain_tvl_ranking()`: top 20 of the descending ranking, plus the
total over all chains. -/
def chain_tvl_ranking (chains : List ChainInfo) : ChainRanking :=
  { chains := ((sortTvlDesc chains).take 20).map projChain
    total_tvl := (chains.map tvlKey).sum }

theorem insertDesc_perm (a : ChainInfo) (l : List ChainInfo) :
    (insertDesc a l).Perm (a :: l) := by
  induction l with
  | nil => exact List.Perm.refl _
  | cons x xs ih =>
    by_cases h : tvlKey a < tvlKey x
    · rw [insertDesc, if_pos h]
      exact (ih.cons x).trans (List.Perm.swap a x xs)
    · rw [insertDesc, if_neg h]

theorem mem_insertDesc {b a : ChainInfo} {l : List ChainInfo} :
    b ∈ insertDesc a l ↔ b = a ∨ b ∈ l := by
  have h := (insertDesc_perm a l).mem_iff (a := b)
  simpa using h

theorem pairwise_insertDesc (a : ChainInfo) (l : List ChainInfo)
    (h : l.Pairwise (fun u v => tvlKey v ≤ tvlKey u)) :
    (insertDesc a l).Pairwise (fun u v => tvlKey v ≤ tvlKey u) := by
  induction l with
  | nil => simp [insertDesc]
  | cons x xs ih =>
    rcases List.pairwise_cons.mp h with ⟨hx, hxs⟩
    by_cases hlt : tvlKey a < tvlKey x
    · rw [insertDesc, if_pos hlt]
      refine List.pairwise_cons.mpr ⟨?_, ih hxs⟩
      intro b hb
      rcases mem_insertDesc.mp hb with rfl | hbmem
      · exact hlt.le
      · exact hx b hbmem
    · rw [insertDesc, if_neg hlt]
      push_neg at hlt
      refine List.pairwise_cons.mpr ⟨?_, h⟩
      intro b hb
      rcases List.mem_cons.mp hb with rfl | hbmem
      · exact hlt
      · exact le_trans (hx b hbmem) hlt

theorem filter_insertDesc (t : ℚ) (a : ChainInfo) (l : List ChainInfo) :
    (insertDesc a l).filter (fun c => tvlKey c == t)
      = if tvlKey a == t then a :: l.filter (fun c => tvlKey c == t)
        else l.filter (fun c => tvlKey c == t) := by
  induction l with
  | nil =>
    rw [insertDesc]
    simp [List.filter_cons]
  | cons x xs ih =>
    by_cases hlt : tvlKey a < tvlKey x
    · rw [insertDesc, if_pos hlt, List.filter_cons, ih]
      by_cases hat : tvlKey a = t
      · have hxt : ¬ tvlKey x = t := by
          intro hx
          rw [hat, ← hx] at hlt
          exact absurd hlt (lt_irrefl (tvlKey x))
        simp [List.filter_cons, hat, hxt]
      · simp [List.filter_cons, hat]
    · rw [insertDesc, if_neg hlt]
      simp [List.filter_cons]

theorem filter_sortTvlDesc (t : ℚ) (l : List ChainInfo) :
    (sortTvlDesc l).filter (fun c => tvlKey c == t)
      = l.filter (fun c => tvlKey c == t) := by
  induction l with
  | nil => rfl
  | cons a xs ih =>
    show (insertDesc a (sortTvlDesc xs)).filter _ = _
    rw [filter_insertDesc]
    simp only [ih]
    rw [List.filter_cons]

theorem sortTvlDesc_perm (l : List ChainInfo) : (sortTvlDesc l).Perm l := by
  induction l with
  | nil => exact List.Perm.refl _
  | cons a xs ih => exact (insertDesc_perm a (sortTvlDesc xs)).trans (ih.cons a)

theorem sortTvlDesc_sorted (l : List ChainInfo) :
    (sortTvlDesc l).Pairwise (fun u v => tvlKey v ≤ tvlKey u) := by
  induction l with
  | nil => simp [sortTvlDesc]
  | cons a xs ih => exact pairwise_insertDesc a (sortTvlDesc xs) ih

/-- C8: the ranking is descending by TVL, a permutation of the input
whose equal-TVL chains keep their relative input order (stability, as
preservation of every equal-key filter), the output truncates that
ranking to 20, and the reported total sums the TVL of all input chains. -/
theorem chain_ranking_spec :
    ∀ chains : List ChainInfo,
      (sortTvlDesc chains).Pairwise (fun u v => tvlKey v ≤ tvlKey u)
    ∧ (sortTvlDesc chains).Perm chains
    ∧ (∀ t : ℚ, (sortTvlDesc chains).filter (fun c => tvlKey c == t)
          = chains.filter (fun c => tvlKey c == t))
    ∧ (chain_tvl_ranking chains).chains
        = ((sortTvlDesc chains).take 20).map projChain
    ∧ (chain_tvl_ranking chains).total_tvl = (chains.map tvlKey).sum :=
  fun chains =>
    ⟨sortTvlDesc_sorted chains, sortTvlDesc_perm chains,
      fun t => filter_sortTvlDesc t chains, rfl, rfl⟩

/-! ## DeFi cross-reference in `token_analysis` -/

/-- The loop condition `p_slug == slug or p_name == name_lower or
p_symbol == symbol_lower`, with both sides lowered by `.lower()` and
missing fields defaulted to the empty string. -/
def matchesCoin (cid cname csym : Option String) (p : ProtoListEntry) : Bool :=
  lowerChars (p.slug.getD "") == lowerChars (cid.getD "")
  || lowerChars (p.name.getD "") == lowerChars (cname.getD "")
  || lowerChars (p.symbol.getD "") == lowerChars (csym.getD "")

/-- The `for p in protocols` loop: the first entry matching any of the
three fields supplies `defi_tvl = p.get("tvl")` and the loop breaks. -/
def defiLoop (cid cname csym : Option String) : List ProtoListEntry → Option ℚ
  | [] => none
  | p :: ps =>
    if matchesCoin cid cname csym p then p.tvl else defiLoop cid cname csym ps

/-- The DeFi-TVL cross-reference of `token_analysis`: `none` for the
protocol list means the `get_protocols` call raised and the
`try/except` left `defi_tvl = None`. -/
def defi_tvl_lookup (plist : Option (List ProtoListEntry))
    (cid cname csym : Option String) : Option ℚ :=
  match plist with
  | none => none
  | some ps => defiLoop cid cname csym ps

/-- Following the spec's words, for comparison: an exact case-insensitive
match on slug over the whole list first, then name, then symbol, in that
priority order. -/
def defi_tvl_lookup_specOrder (plist : Option (List ProtoListEntry))
    (cid cname csym : Option String) : Option ℚ :=
  match plist with
  | none => none
  | some ps =>
    match ps.find? (fun p => lowerChars (p.slug.getD "") == lowerChars (cid.getD "")) with
    | some p => p.tvl
    | none =>
      match ps.find? (fun p => lowerChars (p.name.getD "") == lowerChars (cname.getD "")) with
      | some p => p.tvl
      | none =>
        match ps.find? (fun p => lowerChars (p.symbol.getD "") == lowerChars (csym.getD "")) with
        | some p => p.tvl
        | none => none

/-- C9 counterexample: an earlier list entry matching only by name wins
over a later entry matching by slug, so the code does not implement the
slug-then-name-then-symbol priority the claim states. -/
theorem defi_lookup_priority_cex :
    defi_tvl_lookup
        (some [⟨some "aave", some "foo", some "zzz", some 1, none, none, none⟩,
               ⟨some "mycoin", some "bar", some "qqq", some 2, none, none, none⟩])
        (some "mycoin") (some "foo") (some "sss") = some 1
  ∧ defi_tvl_lookup_specOrder
        (some [⟨some "aave", some "foo", some "zzz", some 1, none, none, none⟩,
               ⟨some "mycoin", some "bar", some "qqq", some 2, none, none, none⟩])
        (some "mycoin") (some "foo") (some "sss") = some 2
  ∧ (some (1 : ℚ)) ≠ some 2 := by
  refine ⟨by decide, by decide, by decide⟩

/-- C9 amended: the lookup returns the `tvl` field of the first protocol
in list order matching any of slug, name or symbol (case-insensitively);
a failed protocol-list fetch or the absence of a match yields `none`, and
the lookup is a total function — it never fails the operation. -/
theorem defi_lookup_first_match :
    (∀ cid cname csym, defi_tvl_lookup none cid cname csym = none)
  ∧ (∀ ps cid cname csym,
      defi_tvl_lookup (some ps) cid cname csym
        = (ps.find? (matchesCoin cid cname csym)).bind (fun p => p.tvl)) := by
  refine ⟨fun _ _ _ => rfl, ?_⟩
  intro ps cid cname csym
  show defiLoop cid cname csym ps = _
  induction ps with
  | nil => rfl
  | cons p ps ih =>
    by_cases h : matchesCoin cid cname csym p = true
    · simp [defiLoop, h, List.find?_cons_of_pos _ h]
    · simp [defiLoop, h, List.find?_cons_of_neg _ h, ih]

/-! ## Sentiment index fetch (`DataSources.get_fear_greed`) -/

/-- One entry of the upstream `data` list. -/
structure FngEntry where
  value : Option ℤ
  value_classification : Option String
  timestamp : Option String
deriving DecidableEq

/-- The payload cached under key "fng". -/
structure FngPayload where
  value : ℤ
  label : String
  timestamp : Option String
deriving DecidableEq

/-- The fetch body of `get_fear_greed`: `raw.get("data", [{}])[0]` with a
missing "data" key defaulting to a one-empty-dict list; a present but
empty "data" list raises `IndexError`, which escapes the fetcher and is a
fetch failure (`none`).  Field defaults: `int(entry.get("value", 0))` and
`entry.get("value_classification", "unknown")`. -/
def get_fear_greed_fetch (data? : Option (List FngEntry)) : Option FngPayload :=
  match data? with
  | none => some { value := 0, label := "unknown", timestamp := none }
  | some [] => none
  | some (e :: _) =>
    some { value := e.value.getD 0
           label := e.value_classification.getD "unknown"
           timestamp := e.timestamp }

/-- C10 counterexample: a first entry lacking "value" but carrying a
classification is parsed with value 0 and that classification as label —
not the claim's default label "unknown". -/
theorem fng_label_kept_cex :
    get_fear_greed_fetch
        (some [{ value := none, value_classification := some "Greed",
                 timestamp := none }])
      = some { value := 0, label := "Greed", timestamp := none }
  ∧ ("Greed" : String) ≠ "unknown" :=
  ⟨rfl, by decide⟩

/-- C10 amended: a 2xx body without the "data" list parses to the default
payload (value 0, label "unknown"); a first entry without "value" parses
to value 0 and a label defaulting to "unknown" only when the
classification is also missing; such a parse is a fetch success, so a
cached read stores and returns the parsed payload instead of propagating
an error or falling back to a prior entry. -/
theorem fng_defaults :
    get_fear_greed_fetch none
      = some { value := 0, label := "unknown", timestamp := none }
  ∧ (∀ (cls ts : Option String) (rest : List FngEntry),
      get_fear_greed_fetch
          (some ({ value := none, value_classification := cls,
                   timestamp := ts } :: rest))
        = some { value := 0, label := cls.getD "unknown", timestamp := ts })
  ∧ (∀ (c : Cache FngPayload) (ttl now : ℚ) (data? : Option (List FngEntry))
        (p : FngPayload),
      cacheGet c "fng" = none → get_fear_greed_fetch data? = some p →
      cached c "fng" ttl (get_fear_greed_fetch data?) now
        = (Except.ok p, cacheSet c "fng" ⟨p, now, ttl⟩))
  ∧ (∀ (c : Cache FngPayload) (ttl now : ℚ) (data? : Option (List FngEntry))
        (p : FngPayload) (e : CacheEntry FngPayload),
      cacheGet c "fng" = some e → e.fresh now = false →
      get_fear_greed_fetch data? = some p →
      cached c "fng" ttl (get_fear_greed_fetch data?) now
        = (Except.ok p, cacheSet c "fng" ⟨p, now, ttl⟩)) := by
  refine ⟨rfl, fun cls ts rest => rfl, ?_, ?_⟩
  · intro c ttl now data? p hget hd
    unfold cached
    rw [hget, hd]
  · intro c ttl now data? p e hget hstale hd
    unfold cached
    rw [hget, hd]
    simp [hstale]

theorem fng_defaults_witness :
    cached ([] : Cache FngPayload) "fng" 300 (get_fear_greed_fetch none) 0
      = (Except.ok { value := 0, label := "unknown", timestamp := none },
         cacheSet [] "fng"
           ⟨{ value := 0, label := "unknown", timestamp := none }, 0, 300⟩) :=
  fng_defaults.2.2.1 [] 300 0 none
    { value := 0, label := "unknown", timestamp := none } rfl rfl

end AgentMagnet
